import Mathlib

/-!
# Leaderboard ranking engine: shallow embedding and verification

This file embeds the leaderboard ranking engine of `leaderboard_routes.py`
(the `GET /api/leaderboard` handler `get_leaderboard` and the
`GET /api/leaderboard/my-rank` handler `get_my_rank`) and proves or refutes
the specification claims about it.

The persistent score store (a Supabase/PostgREST `users` table) is modelled
as a `List Row` together with a `Store` record of the three query shapes the
handlers issue.  `supabaseStore` interprets those queries over the list with
PostgREST/Postgres semantics: `.order("score", desc=True)` sorts descending
with SQL null scores first (Postgres `DESC` default is `NULLS FIRST`),
`.range(lo, hi)` is inclusive on both ends, `.gt("score", x)` keeps rows
whose (non-null) score strictly exceeds `x`, and `.limit(n)` truncates.
-/

namespace Leaderboard

/-- A stored `users` row with the columns the handlers select:
`id, username, avatar, score, created_at`.  `score` is nullable in the
handlers' defensive reading (`r.get("score") or 0`), hence `Option Nat`. -/
structure Row where
  id : Nat
  username : String
  avatar : Option String
  score : Option Nat
  created_at : Nat
deriving DecidableEq, Repr

/-- One item of the JSON response: `{id, username, avatar, score, position}`. -/
structure RankedEntry where
  id : Nat
  username : String
  avatar : Option String
  score : Nat
  position : Nat
deriving DecidableEq, Repr

/-- The `GET /api/leaderboard` response `{items, page, page_size}`. -/
structure LbPage where
  items : List RankedEntry
  page : Int
  page_size : Int
deriving DecidableEq, Repr

/-- Error outcomes of the handlers: FastAPI 422 query validation,
HTTP 500 on a failed store query, HTTP 404 for an unknown user. -/
inductive Err where
  | validation
  | storeFailure (msg : String)
  | notFound
deriving DecidableEq, Repr

/-- The score the handlers report for a row: `r.get("score") or 0`. -/
def outScore (r : Row) : Nat := r.score.getD 0

instance {ε α : Type _} [DecidableEq ε] [DecidableEq α] :
    DecidableEq (Except ε α)
  | .error e1, .error e2 =>
    if h : e1 = e2 then isTrue (congrArg Except.error h)
    else isFalse (fun hc => h (Except.error.inj hc))
  | .error _, .ok _ => isFalse (fun hc => Except.noConfusion hc)
  | .ok _, .error _ => isFalse (fun hc => Except.noConfusion hc)
  | .ok a1, .ok a2 =>
    if h : a1 = a2 then isTrue (congrArg Except.ok h)
    else isFalse (fun hc => h (Except.ok.inj hc))

/-- `a`'s score column sorts strictly before `b`'s under
`.order("score", desc=True)`: descending by value, SQL nulls first. -/
def scoreBefore : Option Nat → Option Nat → Prop
  | none, some _ => True
  | some x, some y => y < x
  | none, none => False
  | some _, none => False

instance : DecidableRel scoreBefore := fun x y =>
  match x, y with
  | none, some _ => isTrue trivial
  | some x, some y => inferInstanceAs (Decidable (y < x))
  | none, none => isFalse (fun h => h)
  | some _, none => isFalse (fun h => h)

/-- The deterministic total order of the page query:
`score` descending (nulls first), then `created_at` ascending,
then `id` ascending. -/
def rowLE (a b : Row) : Prop :=
  scoreBefore a.score b.score ∨
    (a.score = b.score ∧
      (a.created_at < b.created_at ∨
        (a.created_at = b.created_at ∧ a.id ≤ b.id)))

instance : DecidableRel rowLE := fun a b =>
  inferInstanceAs (Decidable (scoreBefore a.score b.score ∨
    (a.score = b.score ∧
      (a.created_at < b.created_at ∨
        (a.created_at = b.created_at ∧ a.id ≤ b.id)))))

instance : IsTotal Row rowLE := by
  constructor
  intro a b
  unfold rowLE scoreBefore
  rcases ha : a.score with _ | x <;> rcases hb : b.score with _ | y <;> simp <;> omega

instance : IsTrans Row rowLE := by
  constructor
  intro a b c hab hbc
  unfold rowLE scoreBefore at *
  rcases ha : a.score with _ | x <;> rcases hb : b.score with _ | y <;>
    rcases hc : c.score with _ | z <;>
    simp_all <;> omega

/-- The table as returned by the ordered page query. -/
def sortRows (table : List Row) : List Row := table.insertionSort rowLE

/-- Descending order on plain score values (`order("score", desc=True)` on
the single selected column of the higher-score query). -/
def natDescLE (a b : Nat) : Prop := b ≤ a

instance : DecidableRel natDescLE := fun a b => inferInstanceAs (Decidable (b ≤ a))

instance : IsTotal Nat natDescLE := ⟨fun a b => Nat.le_total b a⟩

instance : IsTrans Nat natDescLE := ⟨fun _ _ _ hab hbc => Nat.le_trans hbc hab⟩

/-- The multiset of stored scores strictly greater than `x`:
`select("score").gt("score", x)` (SQL `>` discards null scores). -/
def qualScores (table : List Row) (x : Nat) : List Nat :=
  (table.filterMap (fun r => r.score)).filter (fun s => decide (x < s))

/-- The rows returned by the higher-score query before the limit:
qualifying scores in descending order. -/
def fetchHigherList (table : List Row) (x : Nat) : List Nat :=
  (qualScores table x).insertionSort natDescLE

/-- The client-side distinct-higher count both handlers compute:
fetch up to `100000` qualifying rows (highest first), then de-duplicate
(`{r.get("score") for r in higher_resp.data}`) and take the size. -/
def countDistinctHigher (table : List Row) (x : Nat) : Nat :=
  ((fetchHigherList table x).take 100000).toFinset.card

/-- The exact number of distinct score values strictly greater than `x`
across the entire table (the spec's `CountDistinctScoresGreaterThan`). -/
def exactDistinctHigher (table : List Row) (x : Nat) : Nat :=
  (qualScores table x).toFinset.card

/-- The store interface the two handlers consume: the ordered inclusive
range fetch, the limited higher-score fetch, and the by-id fetch.  Each
query may fail, which the handlers surface as HTTP 500. -/
structure Store where
  fetchPage : Nat → Nat → Except String (List Row)
  fetchHigher : Nat → Nat → Except String (List Nat)
  fetchById : Nat → Except String (Option Row)

/-- The live store over table contents `table`, interpreting the three
query chains of the source with PostgREST semantics. -/
def supabaseStore (table : List Row) : Store where
  fetchPage lo hi := .ok (((sortRows table).drop lo).take (hi + 1 - lo))
  fetchHigher x limit := .ok ((fetchHigherList table x).take limit)
  fetchById uid := .ok (table.find? (fun r => r.id == uid))

/-- `get_leaderboard(page, page_size)`: the handler body of
`GET /api/leaderboard`, with FastAPI `Query(1, ge=1)` / `Query(10, ge=1, le=100)`
validation applied first. -/
def get_leaderboard (store : Store) (page page_size : Int) : Except Err LbPage :=
  if 1 ≤ page ∧ 1 ≤ page_size ∧ page_size ≤ 100 then
    let offset : Nat := ((page - 1) * page_size).toNat
    match store.fetchPage offset (offset + page_size.toNat - 1) with
    | .error msg => .error (.storeFailure msg)
    | .ok [] => .ok ⟨[], page, page_size⟩
    | .ok (r0 :: rest) =>
      let top_score : Nat := r0.score.getD 0
      match store.fetchHigher top_score 100000 with
      | .error msg => .error (.storeFailure msg)
      | .ok higher =>
        let base_rank : Nat := higher.toFinset.card + 1
        let uniq : List Nat :=
          ((r0 :: rest).map (fun r => r.score.getD 0)).dedup.insertionSort natDescLE
        let items : List RankedEntry := (r0 :: rest).map (fun r =>
          { id := r.id
            username := r.username
            avatar := r.avatar
            score := r.score.getD 0
            position := base_rank +
              (if r.score.getD 0 ∈ uniq then uniq.indexOf (r.score.getD 0) else 0) })
        .ok ⟨items, page, page_size⟩
  else .error .validation

/-- `get_my_rank` for the authenticated user `uid`:
the handler body of `GET /api/leaderboard/my-rank`. -/
def get_my_rank (store : Store) (uid : Nat) : Except Err RankedEntry :=
  match store.fetchById uid with
  | .error msg => .error (.storeFailure msg)
  | .ok none => .error .notFound
  | .ok (some row) =>
    let score : Nat := row.score.getD 0
    match store.fetchHigher score 100000 with
    | .error msg => .error (.storeFailure msg)
    | .ok higher =>
      .ok { id := row.id
            username := row.username
            avatar := row.avatar
            score := score
            position := higher.toFinset.card + 1 }

/-- The request surface of `GET /api/leaderboard`: FastAPI substitutes the
declared defaults `page = 1`, `page_size = 10` for omitted query params. -/
def handle_leaderboard_request (store : Store) (page page_size : Option Int) :
    Except Err LbPage :=
  get_leaderboard store (page.getD 1) (page_size.getD 10)

/-- Tables drawn from the spec's data model have integer (non-null) scores. -/
def NoNulls (table : List Row) : Prop := ∀ r ∈ table, r.score ≠ none

/-- The spec's data-model invariant: `id` is unique across all records. -/
def UniqueIds (table : List Row) : Prop := table.Pairwise (fun a b => a.id ≠ b.id)

/-- The spec's scenario table
`[{id:1,score:100},{id:2,score:100},{id:3,score:90},{id:4,score:80}]`. -/
def exTable : List Row :=
  [⟨1, "u1", none, some 100, 1⟩, ⟨2, "u2", none, some 100, 2⟩,
   ⟨3, "u3", none, some 90, 3⟩, ⟨4, "u4", none, some 80, 4⟩]

/-- A row with score 3 (the tie value repeated beyond the scan limit). -/
def rowThree : Row := ⟨0, "t", none, some 3, 0⟩

/-- The single row with score 2 (the distinct value the capped scan loses). -/
def rowTwo : Row := ⟨100001, "v", none, some 2, 0⟩

/-- The bottom row with score 1. -/
def rowOne : Row := ⟨100002, "w", none, some 1, 0⟩

/-- A table on which more than 100000 rows exceed the scores 1 and 2:
100001 rows with score 3, then one row with score 2 and one with score 1. -/
def bigTable : List Row := List.replicate 100001 rowThree ++ [rowTwo, rowOne]

/-- The slice of the ordered table served for `(page, page_size)`:
`offset = (page-1)*page_size`, `page_size` rows. -/
def pageRows (table : List Row) (page page_size : Int) : List Row :=
  ((sortRows table).drop (((page - 1) * page_size).toNat)).take page_size.toNat

/-- The items `get_leaderboard` builds from a fetched page slice
(empty slice gives the empty items list). -/
def mkItems (table : List Row) : List Row → List RankedEntry
  | [] => []
  | r0 :: rest =>
    let base_rank : Nat := countDistinctHigher table (outScore r0) + 1
    let uniq : List Nat :=
      ((r0 :: rest).map outScore).dedup.insertionSort natDescLE
    (r0 :: rest).map (fun r =>
      { id := r.id
        username := r.username
        avatar := r.avatar
        score := outScore r
        position := base_rank +
          (if outScore r ∈ uniq then uniq.indexOf (outScore r) else 0) })

/-- The set of distinct reported score values of a table. -/
def scoreSet (table : List Row) : Finset Nat := (table.map outScore).toFinset

/-- The spec's ordering contract, stated in the spec's own words over the
data model's integer scores: primary key `score` descending, tiebreak 1
`created_at` ascending, tiebreak 2 `id` ascending. -/
def specLE (a b : Row) : Prop :=
  outScore b < outScore a ∨
    (outScore a = outScore b ∧
      (a.created_at < b.created_at ∨
        (a.created_at = b.created_at ∧ a.id ≤ b.id)))

/-- The record content of a response item (everything except the computed
position). -/
def entryData (e : RankedEntry) : Nat × String × Option String × Nat :=
  (e.id, e.username, e.avatar, e.score)

/-- The record content of a stored row, with the reported score. -/
def rowData (r : Row) : Nat × String × Option String × Nat :=
  (r.id, r.username, r.avatar, outScore r)

/-- The items of one leaderboard page (empty on an error response). -/
def pageItems (table : List Row) (page page_size : Int) : List RankedEntry :=
  match get_leaderboard (supabaseStore table) page page_size with
  | .ok out => out.items
  | .error _ => []

/-- The concatenation of the item sequences of pages `1..n`. -/
def pagesConcat (table : List Row) (page_size : Int) (n : Nat) : List RankedEntry :=
  (List.range n).flatMap (fun k => pageItems table ((k : Int) + 1) page_size)

/-- The same table with every null score replaced by the stored score 0. -/
def patchZero (table : List Row) : List Row :=
  table.map (fun r => { r with score := some (outScore r) })

/-- A two-row table with one null-score row: the null row sorts first under
the descending order. -/
def nullTable : List Row :=
  [⟨1, "a", none, none, 1⟩, ⟨2, "b", none, some 5, 2⟩]

end Leaderboard

namespace Leaderboard

/-! ## Theorems -/

/-- C6: `get_leaderboard` rejects `page < 1` or `page_size` outside `[1, 100]`
with a validation error, and does so for every store whatsoever — the
rejection cannot depend on (and issues) no store query. -/
theorem c6_validation_rejected_before_store (store : Store) (page page_size : Int)
    (h : page < 1 ∨ page_size < 1 ∨ 100 < page_size) :
    get_leaderboard store page page_size = .error .validation := by
  unfold get_leaderboard
  rw [if_neg]
  omega

/-- C6 witness: `GetLeaderboardPage(0, 10)` fails with a validation error. -/
theorem c6_witness :
    get_leaderboard (supabaseStore exTable) 0 10 = .error .validation :=
  c6_validation_rejected_before_store (supabaseStore exTable) 0 10 (by norm_num)

/-- C7: whenever the store's page fetch returns zero rows for a valid
`(page, page_size)`, `get_leaderboard` succeeds with an empty items list and
echoes the requested page and page size. -/
theorem c7_empty_fetch_gives_empty_page (store : Store) (page page_size : Int)
    (h1 : 1 ≤ page) (h2 : 1 ≤ page_size) (h3 : page_size ≤ 100)
    (hfetch : store.fetchPage (((page - 1) * page_size).toNat)
        (((page - 1) * page_size).toNat + page_size.toNat - 1) = .ok []) :
    get_leaderboard store page page_size = .ok ⟨[], page, page_size⟩ := by
  unfold get_leaderboard
  rw [if_pos ⟨h1, h2, h3⟩]
  simp only [hfetch]

/-- C7 witness: `GetLeaderboardPage(5, 10)` on the 4-row scenario table
returns `items: []` with page 5 and page size 10 echoed. -/
theorem c7_witness :
    get_leaderboard (supabaseStore exTable) 5 10 = .ok ⟨[], 5, 10⟩ :=
  c7_empty_fetch_gives_empty_page (supabaseStore exTable) 5 10
    (by norm_num) (by norm_num) (by norm_num) rfl

/-- C8: against a store that answers successfully, `get_my_rank uid` fails
with the not-found error exactly when no record has id `uid`; in particular
it never reports not-found for a user present in the table, and reports no
other error kind for an absent one. -/
theorem c8_notFound_iff_absent (table : List Row) (uid : Nat) :
    get_my_rank (supabaseStore table) uid = .error .notFound ↔
      ∀ r ∈ table, r.id ≠ uid := by
  unfold get_my_rank supabaseStore
  rcases h : table.find? (fun r => r.id == uid) with _ | row
  · simp only [h]
    rw [List.find?_eq_none] at h
    simpa using h
  · simp only [h]
    have hrow := List.find?_some h
    have hmem := List.mem_of_find?_eq_some h
    simp only [beq_iff_eq] at hrow
    constructor
    · intro hcontra
      exact absurd hcontra (by simp)
    · intro hall
      exact absurd hrow (hall row hmem)

/-- C8 witness: on the scenario table, userId 9 (absent) yields not-found,
and userId 3 (present) does not. -/
theorem c8_witness :
    get_my_rank (supabaseStore exTable) 9 = .error .notFound ∧
      ¬ get_my_rank (supabaseStore exTable) 3 = .error .notFound :=
  ⟨(c8_notFound_iff_absent exTable 9).mpr (by decide),
    fun h => by
      have := (c8_notFound_iff_absent exTable 3).mp h
      exact absurd rfl (this ⟨3, "u3", none, some 90, 3⟩ (by decide))⟩

/-- C10: omitting the page argument behaves as `page = 1`, omitting the page
size argument behaves as `page_size = 10`, and the defaults pass validation
(no store, even a failing one, can make the default request a validation
error). -/
theorem c10_defaults (store : Store) (p s : Option Int) :
    handle_leaderboard_request store none s =
        handle_leaderboard_request store (some 1) s ∧
      handle_leaderboard_request store p none =
        handle_leaderboard_request store p (some 10) ∧
      ∀ st : Store, handle_leaderboard_request st none none ≠ .error .validation := by
  refine ⟨rfl, rfl, ?_⟩
  intro st
  unfold handle_leaderboard_request get_leaderboard
  rw [if_pos (by norm_num)]
  rcases h : st.fetchPage 0 9 with m | rows
  · simp [h]
  · rcases rows with _ | ⟨r0, rest⟩
    · simp [h]
    · rcases h2 : st.fetchHigher (r0.score.getD 0) 100000 with m2 | higher <;>
        simp [h, h2]

/-- C10 witness: concrete instantiation on the scenario table. -/
theorem c10_witness :
    handle_leaderboard_request (supabaseStore exTable) none (some 10) =
        handle_leaderboard_request (supabaseStore exTable) (some 1) (some 10) ∧
      handle_leaderboard_request (supabaseStore exTable) none none ≠
        .error .validation :=
  ⟨(c10_defaults (supabaseStore exTable) none (some 10)).1,
    (c10_defaults (supabaseStore exTable) none none).2.2 (supabaseStore exTable)⟩

end Leaderboard


namespace Leaderboard

/-- Replicated lists are pairwise related once the repeated element relates
to itself. -/
theorem pairwise_replicate_of_rel {α : Type _} {r : α → α → Prop} {a : α}
    (h : r a a) : ∀ n, List.Pairwise r (List.replicate n a)
  | 0 => List.Pairwise.nil
  | n + 1 => by
    rw [List.replicate_succ]
    exact List.Pairwise.cons
      (fun b hb => (List.eq_of_mem_replicate hb) ▸ h)
      (pairwise_replicate_of_rel h n)

/-- The distinct values of a nonempty replicated list form a singleton. -/
theorem toFinset_replicate_pos {α : Type _} [DecidableEq α] {n : Nat} (a : α)
    (h : 0 < n) : (List.replicate n a).toFinset = {a} := by
  ext x
  simp only [List.mem_toFinset, List.mem_replicate, Finset.mem_singleton]
  constructor
  · rintro ⟨-, h2⟩
    exact h2
  · rintro rfl
    exact ⟨Nat.pos_iff_ne_zero.mp h, rfl⟩

/-- On a valid request, `get_leaderboard` over the live store succeeds and
returns exactly the items built from the ordered page slice. -/
theorem get_leaderboard_supabase (table : List Row) (page page_size : Int)
    (h1 : 1 ≤ page) (h2 : 1 ≤ page_size) (h3 : page_size ≤ 100) :
    get_leaderboard (supabaseStore table) page page_size =
      .ok ⟨mkItems table (pageRows table page page_size), page, page_size⟩ := by
  unfold get_leaderboard
  rw [if_pos ⟨h1, h2, h3⟩]
  have hfp : (supabaseStore table).fetchPage (((page - 1) * page_size).toNat)
      ((((page - 1) * page_size).toNat) + page_size.toNat - 1) =
        .ok (pageRows table page page_size) := by
    show Except.ok _ = _
    unfold pageRows
    congr 2
    omega
  rcases hrows : pageRows table page page_size with _ | ⟨r0, rest⟩
  · rw [hrows] at hfp
    simp only [hfp, mkItems]
  · rw [hrows] at hfp
    simp only [hfp]
    simp only [mkItems, countDistinctHigher, supabaseStore, outScore,
      List.map_cons, List.map_map]
    exact rfl

end Leaderboard

namespace Leaderboard

/-- `get_my_rank` over the live store: not-found for an absent id, else the
row's reported score and the capped distinct-higher count plus one. -/
theorem get_my_rank_supabase (table : List Row) (uid : Nat) :
    get_my_rank (supabaseStore table) uid =
      match table.find? (fun r => r.id == uid) with
      | none => .error .notFound
      | some row =>
        .ok ⟨row.id, row.username, row.avatar, row.score.getD 0,
          countDistinctHigher table (row.score.getD 0) + 1⟩ := by
  unfold get_my_rank
  rcases h : table.find? (fun r => r.id == uid) with _ | row
  · simp [supabaseStore, h]
  · simp [supabaseStore, h, countDistinctHigher]

/-- The counterexample table is already in the page-query order. -/
theorem bigTable_sorted : List.Sorted rowLE bigTable := by
  unfold bigTable
  show List.Pairwise rowLE _
  rw [List.pairwise_append]
  refine ⟨pairwise_replicate_of_rel (by decide) _, ?_, ?_⟩
  · refine List.Pairwise.cons ?_ (List.Pairwise.cons (by simp) List.Pairwise.nil)
    intro b hb
    simp only [List.mem_singleton] at hb
    subst hb
    decide
  · intro a ha b hb
    rw [List.eq_of_mem_replicate ha]
    have hb2 : b = rowTwo ∨ b = rowOne := by simpa using hb
    rcases hb2 with rfl | rfl <;> decide

theorem sortRows_bigTable : sortRows bigTable = bigTable :=
  List.Sorted.insertionSort_eq bigTable_sorted

theorem filterMap_score_bigTable :
    bigTable.filterMap (fun r => r.score) = List.replicate 100001 3 ++ [2, 1] := by
  unfold bigTable
  rw [List.filterMap_append,
    List.filterMap_replicate_of_some
      (show (fun r : Row => r.score) rowThree = some 3 from rfl)]
  rfl

theorem qualScores_bigTable_one :
    qualScores bigTable 1 = List.replicate 100001 3 ++ [2] := by
  unfold qualScores
  rw [filterMap_score_bigTable, List.filter_append, List.filter_replicate,
    if_pos (show decide ((1 : Nat) < 3) = true from rfl)]
  rfl

theorem qualScores_bigTable_two :
    qualScores bigTable 2 = List.replicate 100001 3 := by
  unfold qualScores
  rw [filterMap_score_bigTable, List.filter_append, List.filter_replicate,
    if_pos (show decide ((2 : Nat) < 3) = true from rfl),
    show List.filter (fun s => decide ((2 : Nat) < s)) [2, 1] = [] from rfl,
    List.append_nil]

theorem qualScores_bigTable_three : qualScores bigTable 3 = [] := by
  unfold qualScores
  rw [filterMap_score_bigTable, List.filter_append, List.filter_replicate,
    if_neg (show ¬decide ((3 : Nat) < 3) = true from by decide)]
  rfl

theorem fetchHigherList_bigTable_one :
    fetchHigherList bigTable 1 = List.replicate 100001 3 ++ [2] := by
  unfold fetchHigherList
  rw [qualScores_bigTable_one]
  refine List.Sorted.insertionSort_eq ?_
  show List.Pairwise natDescLE _
  rw [List.pairwise_append]
  refine ⟨pairwise_replicate_of_rel (r := natDescLE) (le_refl 3) _,
    List.sorted_singleton 2, ?_⟩
  intro a ha b hb
  rw [List.eq_of_mem_replicate ha]
  simp only [List.mem_singleton] at hb
  subst hb
  exact (by norm_num : (2 : Nat) ≤ 3)

theorem fetchHigherList_bigTable_two :
    fetchHigherList bigTable 2 = List.replicate 100001 3 := by
  unfold fetchHigherList
  rw [qualScores_bigTable_two]
  exact List.Sorted.insertionSort_eq
    (pairwise_replicate_of_rel (r := natDescLE) (le_refl 3) _)

theorem countDistinctHigher_bigTable_one : countDistinctHigher bigTable 1 = 1 := by
  unfold countDistinctHigher
  rw [fetchHigherList_bigTable_one,
    List.take_append_of_le_length
      (by rw [List.length_replicate]; norm_num),
    List.take_replicate,
    show min 100000 100001 = 100000 from by norm_num,
    toFinset_replicate_pos 3 (by norm_num)]
  exact Finset.card_singleton 3

theorem countDistinctHigher_bigTable_two : countDistinctHigher bigTable 2 = 1 := by
  unfold countDistinctHigher
  rw [fetchHigherList_bigTable_two, List.take_replicate,
    show min 100000 100001 = 100000 from by norm_num,
    toFinset_replicate_pos 3 (by norm_num)]
  exact Finset.card_singleton 3

theorem countDistinctHigher_bigTable_three : countDistinctHigher bigTable 3 = 0 := by
  unfold countDistinctHigher fetchHigherList
  rw [qualScores_bigTable_three]
  rfl

theorem exactDistinctHigher_bigTable_one : exactDistinctHigher bigTable 1 = 2 := by
  unfold exactDistinctHigher
  rw [qualScores_bigTable_one, List.toFinset_append,
    toFinset_replicate_pos 3 (by norm_num)]
  decide

end Leaderboard

namespace Leaderboard

/-- Items built from a one-row slice: the single entry gets position
`base_rank`. -/
theorem mkItems_singleton (table : List Row) (r : Row) :
    mkItems table [r] = [⟨r.id, r.username, r.avatar, outScore r,
      countDistinctHigher table (outScore r) + 1⟩] := by
  simp [mkItems]

theorem pageRows_bigTable_100003 : pageRows bigTable 100003 1 = [rowOne] := by
  unfold pageRows
  rw [sortRows_bigTable]
  unfold bigTable
  rw [List.drop_append_eq_append_drop, List.drop_replicate, List.length_replicate]
  rfl

theorem pageRows_bigTable_100002 : pageRows bigTable 100002 1 = [rowTwo] := by
  unfold pageRows
  rw [sortRows_bigTable]
  unfold bigTable
  rw [List.drop_append_eq_append_drop, List.drop_replicate, List.length_replicate]
  rfl

theorem pageRows_bigTable_25001_4 :
    pageRows bigTable 25001 4 = [rowThree, rowTwo, rowOne] := by
  unfold pageRows
  rw [sortRows_bigTable]
  unfold bigTable
  rw [List.drop_append_eq_append_drop, List.drop_replicate, List.length_replicate]
  rfl

/-- Page 100003 of size 1 of the big table: the score-1 row is reported at
position 2, because the capped scan sees only the 100000 top score-3 rows
and misses the score 2. -/
theorem page_100003_bigTable :
    get_leaderboard (supabaseStore bigTable) 100003 1 =
      .ok ⟨[⟨100002, "w", none, 1, 2⟩], 100003, 1⟩ := by
  rw [get_leaderboard_supabase bigTable 100003 1 (by norm_num) (by norm_num)
      (by norm_num),
    pageRows_bigTable_100003, mkItems_singleton,
    show outScore rowOne = 1 from rfl, countDistinctHigher_bigTable_one]
  rfl

/-- Page 100002 of size 1 of the big table: the score-2 row is also reported
at position 2. -/
theorem page_100002_bigTable :
    get_leaderboard (supabaseStore bigTable) 100002 1 =
      .ok ⟨[⟨100001, "v", none, 2, 2⟩], 100002, 1⟩ := by
  rw [get_leaderboard_supabase bigTable 100002 1 (by norm_num) (by norm_num)
      (by norm_num),
    pageRows_bigTable_100002, mkItems_singleton,
    show outScore rowTwo = 2 from rfl, countDistinctHigher_bigTable_two]
  rfl

/-- Page 25001 of size 4 of the big table holds the last three rows with
positions 1, 2, 3. -/
theorem page_25001_bigTable :
    get_leaderboard (supabaseStore bigTable) 25001 4 =
      .ok ⟨[⟨0, "t", none, 3, 1⟩, ⟨100001, "v", none, 2, 2⟩,
        ⟨100002, "w", none, 1, 3⟩], 25001, 4⟩ := by
  rw [get_leaderboard_supabase bigTable 25001 4 (by norm_num) (by norm_num)
      (by norm_num),
    pageRows_bigTable_25001_4]
  simp only [mkItems]
  rw [show outScore rowThree = 3 from rfl, countDistinctHigher_bigTable_three]
  decide

theorem find_bigTable_100002 :
    bigTable.find? (fun r => r.id == 100002) = some rowOne := by
  unfold bigTable
  rw [List.find?_append, List.find?_replicate_of_neg (by decide)]
  rfl

/-- `get_my_rank` for the score-1 user of the big table reports position 2:
the capped scan loses the distinct score 2 as well. -/
theorem myrank_bigTable_100002 :
    get_my_rank (supabaseStore bigTable) 100002 = .ok ⟨100002, "w", none, 1, 2⟩ := by
  rw [get_my_rank_supabase, find_bigTable_100002]
  show (Except.ok (RankedEntry.mk rowOne.id rowOne.username rowOne.avatar
      (rowOne.score.getD 0) (countDistinctHigher bigTable (rowOne.score.getD 0) + 1)) :
    Except Err RankedEntry) = _
  rw [show rowOne.score.getD 0 = 1 from rfl, countDistinctHigher_bigTable_one]
  rfl

end Leaderboard

namespace Leaderboard

instance : IsRefl Nat natDescLE := ⟨fun a => Nat.le_refl a⟩

theorem sortRows_perm (table : List Row) : List.Perm (sortRows table) table :=
  List.perm_insertionSort rowLE table

theorem sortRows_sorted (table : List Row) : List.Sorted rowLE (sortRows table) :=
  List.sorted_insertionSort rowLE table

theorem mem_sortRows {table : List Row} {r : Row} :
    r ∈ sortRows table ↔ r ∈ table :=
  (sortRows_perm table).mem_iff

/-- The page-query order implies descending reported scores on rows whose
stored score is non-null. -/
theorem outScore_le_of_rowLE {a b : Row} (ha : a.score ≠ none)
    (hb : b.score ≠ none) (h : rowLE a b) : outScore b ≤ outScore a := by
  rcases hsa : a.score with _ | x
  · exact absurd hsa ha
  rcases hsb : b.score with _ | y
  · exact absurd hsb hb
  unfold rowLE at h
  rw [hsa, hsb] at h
  unfold outScore
  rw [hsa, hsb]
  simp only [Option.getD_some]
  rcases h with h | ⟨heq, -⟩
  · exact Nat.le_of_lt h
  · exact (Option.some.inj heq).symm.le

/-- On a null-free table, the ordered table has descending reported scores. -/
theorem sorted_outScores {table : List Row} (hN : NoNulls table) :
    List.Sorted natDescLE ((sortRows table).map outScore) := by
  rw [List.Sorted, List.pairwise_map]
  refine List.Pairwise.imp_of_mem ?_ (sortRows_sorted table)
  intro a b ha hb hab
  exact outScore_le_of_rowLE (hN a (mem_sortRows.mp ha))
    (hN b (mem_sortRows.mp hb)) hab

/-- In a descending sorted list, later entries are no greater. -/
theorem sorted_desc_getElem_le {L : List Nat} (hL : List.Sorted natDescLE L)
    {i j : Nat} (hij : i ≤ j) (hj : j < L.length) : L[j] ≤ L[i] := by
  have hi : i < L.length := lt_of_le_of_lt hij hj
  rcases Nat.eq_or_lt_of_le hij with rfl | hlt
  · exact le_refl _
  · have := List.pairwise_iff_get.mp hL ⟨i, hi⟩ ⟨j, hj⟩ hlt
    simpa [List.get_eq_getElem, natDescLE] using this

/-- On a null-free table the raw higher-score query is the filtered reported
scores. -/
theorem filterMap_eq_map_outScore {table : List Row} (hN : NoNulls table) :
    table.filterMap (fun r => r.score) = table.map outScore := by
  induction table with
  | nil => rfl
  | cons r t ih =>
    have hr := hN r (List.mem_cons_self r t)
    rcases hs : r.score with _ | s
    · exact absurd hs hr
    · rw [List.filterMap_cons, hs, List.map_cons,
        ih (fun x hx => hN x (List.mem_cons_of_mem r hx))]
      unfold outScore
      rw [hs]
      rfl

end Leaderboard

namespace Leaderboard

/-- The exact distinct-higher count is the size of the set of reported
scores above `x` (null-free tables). -/
theorem exactDistinctHigher_eq {table : List Row} (hN : NoNulls table) (x : Nat) :
    exactDistinctHigher table x =
      ((scoreSet table).filter (fun w => x < w)).card := by
  unfold exactDistinctHigher qualScores scoreSet
  rw [filterMap_eq_map_outScore hN, List.toFinset_filter]
  congr 1
  apply Finset.filter_congr
  intro w hw
  simp

/-- In a strictly descending list (sorted descending, no duplicates), the
index of an element counts the strictly greater elements. -/
theorem indexOf_sorted_desc : ∀ {U : List Nat}, List.Sorted natDescLE U →
    U.Nodup → ∀ {v : Nat}, v ∈ U →
    U.indexOf v = (U.filter (fun w => decide (v < w))).length
  | [], _, _, _, hv => absurd hv (List.not_mem_nil _)
  | a :: t, hU, hnd, v, hv => by
    have ha : ∀ b ∈ t, natDescLE a b := List.rel_of_sorted_cons hU
    have ht : List.Sorted natDescLE t := List.Sorted.of_cons hU
    have hndt : t.Nodup := (List.nodup_cons.mp hnd).2
    by_cases hva : v = a
    · subst hva
      rw [List.indexOf_cons_self]
      symm
      rw [List.length_eq_zero, List.filter_eq_nil_iff]
      intro b hb
      rcases List.mem_cons.mp hb with rfl | hbt
      · simp
      · have hba := ha b hbt
        unfold natDescLE at hba
        simp only [decide_eq_true_eq]
        omega
    · have hvt : v ∈ t := by
        rcases List.mem_cons.mp hv with rfl | h
        · exact absurd rfl hva
        · exact h
      have hvlta : v < a := by
        have := ha v hvt
        unfold natDescLE at this
        omega
      rw [List.indexOf_cons_ne t (fun h => hva h.symm),
        List.filter_cons_of_pos (by simpa using hvlta), List.length_cons,
        indexOf_sorted_desc ht hndt hvt]

/-- The handler's page-distinct list (dedup, then descending sort): same
value set as the page scores, without duplicates, sorted descending. -/
theorem uniq_spec (S : List Nat) :
    (S.dedup.insertionSort natDescLE).toFinset = S.toFinset ∧
      (S.dedup.insertionSort natDescLE).Nodup ∧
      List.Sorted natDescLE (S.dedup.insertionSort natDescLE) := by
  refine ⟨?_, ?_, List.sorted_insertionSort natDescLE _⟩
  · rw [List.toFinset_eq_of_perm _ _ (List.perm_insertionSort natDescLE _)]
    ext w
    simp [List.mem_dedup]
  · exact ((List.perm_insertionSort natDescLE _).nodup_iff).mpr (List.nodup_dedup S)

/-- Reading a page slice at a relative index reads the sorted table. -/
theorem getElem_slice {α : Type _} {L : List α} {off n k : Nat}
    (h : k < ((L.drop off).take n).length) :
    ∃ hk : off + k < L.length, ((L.drop off).take n)[k] = L[off + k] := by
  have h1 : k < (L.drop off).length := by
    have := List.length_take n (L.drop off)
    omega
  have h2 : off + k < L.length := by
    have := List.length_drop off L
    omega
  refine ⟨h2, ?_⟩
  rw [List.getElem_take, List.getElem_drop]

end Leaderboard

namespace Leaderboard

/-- When at most 100000 rows qualify, the capped client-side distinct count
agrees with the exact distinct count. -/
theorem countDistinctHigher_eq_exact {table : List Row} {x : Nat}
    (hcap : (qualScores table x).length ≤ 100000) :
    countDistinctHigher table x = exactDistinctHigher table x := by
  unfold countDistinctHigher exactDistinctHigher fetchHigherList
  rw [List.take_of_length_le (by rw [List.length_insertionSort]; exact hcap)]
  exact congrArg Finset.card
    (List.toFinset_eq_of_perm _ _ (List.perm_insertionSort natDescLE _))

/-- Distinct-score splitting: for a row of a fetched page of a null-free
table, the distinct table scores above that row's score are the distinct
table scores above the page's top score together with the distinct page
scores above the row's score. -/
theorem distinct_split (table : List Row) (hN : NoNulls table)
    {off n : Nat} {r0 : Row} {rest : List Row}
    (hP : ((sortRows table).drop off).take n = r0 :: rest)
    {re : Row} (hre : re ∈ r0 :: rest) :
    ((scoreSet table).filter (fun w => outScore re < w)).card =
      ((scoreSet table).filter (fun w => outScore r0 < w)).card +
        (((r0 :: rest).map outScore).toFinset.filter
          (fun w => outScore re < w)).card := by
  set L : List Nat := (sortRows table).map outScore with hLdef
  have hPm : (L.drop off).take n = (r0 :: rest).map outScore := by
    rw [hLdef, ← List.map_drop, ← List.map_take, hP]
  have hLsorted : List.Sorted natDescLE L := sorted_outScores hN
  have hLfin : L.toFinset = scoreSet table := by
    rw [hLdef]
    exact List.toFinset_eq_of_perm _ _ ((sortRows_perm table).map outScore)
  have hsplitL : L = L.take off ++ ((r0 :: rest).map outScore ++ L.drop (off + n)) := by
    conv_lhs => rw [← List.take_append_drop off L,
      ← List.take_append_drop n (L.drop off)]
    rw [hPm, List.drop_drop]
  have hpw : List.Pairwise natDescLE
      (L.take off ++ ((r0 :: rest).map outScore ++ L.drop (off + n))) := by
    rw [← hsplitL]
    exact hLsorted
  rcases List.pairwise_append.mp hpw with ⟨-, hPB, hAcross⟩
  rcases List.pairwise_append.mp hPB with ⟨hPpw, -, hPcross⟩
  have htopmem : outScore r0 ∈ (r0 :: rest).map outScore :=
    List.mem_map_of_mem outScore (List.mem_cons_self r0 rest)
  have hsemem : outScore re ∈ (r0 :: rest).map outScore :=
    List.mem_map_of_mem outScore hre
  -- every page score is at most the page's top score
  have hPle : ∀ w ∈ (r0 :: rest).map outScore, w ≤ outScore r0 := by
    intro w hw
    rw [List.map_cons] at hw
    rcases List.mem_cons.mp hw with rfl | hwt
    · exact le_refl _
    · have := List.rel_of_sorted_cons (l := List.map outScore rest)
        (by rw [← List.map_cons]; exact hPpw) w hwt
      exact this
  have hse_top : outScore re ≤ outScore r0 := hPle _ hsemem
  -- every table score between the row score (exclusive) and the top score
  -- (inclusive) is a page score
  have hbetween : ∀ v ∈ L, outScore re < v → v ≤ outScore r0 →
      v ∈ (r0 :: rest).map outScore := by
    intro v hv h1 h2
    rw [hsplitL] at hv
    rcases List.mem_append.mp hv with hvA | hvPB
    · have hvtop : natDescLE v (outScore r0) :=
        hAcross v hvA (outScore r0) (List.mem_append_left _ htopmem)
      unfold natDescLE at hvtop
      have : v = outScore r0 := le_antisymm h2 hvtop
      rw [this]
      exact htopmem
    · rcases List.mem_append.mp hvPB with hvP | hvB
      · exact hvP
      · have := hPcross (outScore re) hsemem v hvB
        unfold natDescLE at this
        omega
  -- Finset bookkeeping
  have hPsub : ((r0 :: rest).map outScore).toFinset ⊆ scoreSet table := by
    intro w hw
    rw [← hLfin]
    rw [List.mem_toFinset] at hw ⊢
    rw [hsplitL]
    exact List.mem_append_right _ (List.mem_append_left _ hw)
  have hcardsum :
      (((scoreSet table).filter (fun w => outScore re < w)).filter
          (fun w => outScore r0 < w)).card +
        (((scoreSet table).filter (fun w => outScore re < w)).filter
          (fun w => ¬ outScore r0 < w)).card =
      ((scoreSet table).filter (fun w => outScore re < w)).card :=
    Finset.filter_card_add_filter_neg_card_eq_card _
  have h1 : ((scoreSet table).filter (fun w => outScore re < w)).filter
      (fun w => outScore r0 < w) =
        (scoreSet table).filter (fun w => outScore r0 < w) := by
    rw [Finset.filter_filter]
    apply Finset.filter_congr
    intro w hw
    constructor
    · rintro ⟨-, h⟩
      exact h
    · intro h
      exact ⟨lt_of_le_of_lt hse_top h, h⟩
  have h2 : ((scoreSet table).filter (fun w => outScore re < w)).filter
      (fun w => ¬ outScore r0 < w) =
        ((r0 :: rest).map outScore).toFinset.filter
          (fun w => outScore re < w) := by
    ext w
    simp only [Finset.mem_filter, not_lt]
    constructor
    · rintro ⟨⟨hwS, hw1⟩, hw2⟩
      refine ⟨?_, hw1⟩
      rw [List.mem_toFinset]
      refine hbetween w ?_ hw1 hw2
      rw [← List.mem_toFinset, hLfin]
      exact hwS
    · rintro ⟨hwP, hw1⟩
      refine ⟨⟨hPsub hwP, hw1⟩, ?_⟩
      rw [List.mem_toFinset] at hwP
      exact hPle w hwP
  rw [h1, h2] at hcardsum
  omega

end Leaderboard

namespace Leaderboard

/-- Dense-rank correctness within the scan cap: on a null-free table whose
higher-score scans never exceed the 100000-row cap, every item of every
fetched page carries position `1 +` the exact number of distinct table
scores strictly above its own score. -/
theorem position_eq_denseRank (table : List Row) (page page_size : Int)
    (hN : NoNulls table)
    (hcap : ∀ x, (qualScores table x).length ≤ 100000) :
    ∀ e ∈ mkItems table (pageRows table page page_size),
      e.position = exactDistinctHigher table e.score + 1 := by
  intro e he
  rcases hrows : pageRows table page page_size with _ | ⟨r0, rest⟩
  · rw [hrows] at he
    simp [mkItems] at he
  · rw [hrows] at he
    simp only [mkItems] at he
    rw [List.mem_map] at he
    obtain ⟨r, hr, rfl⟩ := he
    obtain ⟨hUfin, hUnd, hUsorted⟩ := uniq_spec ((r0 :: rest).map outScore)
    have hmemU : outScore r ∈
        ((r0 :: rest).map outScore).dedup.insertionSort natDescLE := by
      rw [← List.mem_toFinset, hUfin, List.mem_toFinset]
      exact List.mem_map_of_mem outScore hr
    show countDistinctHigher table (outScore r0) + 1 +
        (if outScore r ∈ ((r0 :: rest).map outScore).dedup.insertionSort natDescLE
          then (((r0 :: rest).map outScore).dedup.insertionSort natDescLE).indexOf
            (outScore r)
          else 0) =
      exactDistinctHigher table (outScore r) + 1
    rw [if_pos hmemU, indexOf_sorted_desc hUsorted hUnd hmemU,
      countDistinctHigher_eq_exact (hcap (outScore r0))]
    have hfl : ((((r0 :: rest).map outScore).dedup.insertionSort
        natDescLE).filter (fun w => decide (outScore r < w))).length =
        (((r0 :: rest).map outScore).toFinset.filter
          (fun w => outScore r < w)).card := by
      rw [← List.toFinset_card_of_nodup (List.Nodup.filter _ hUnd),
        List.toFinset_filter]
      rw [hUfin]
      congr 1
      apply Finset.filter_congr
      intro w hw
      simp
    rw [hfl, exactDistinctHigher_eq hN, exactDistinctHigher_eq hN]
    have hP : ((sortRows table).drop (((page - 1) * page_size).toNat)).take
        page_size.toNat = r0 :: rest := by
      rw [← hrows]
      rfl
    have := distinct_split table hN hP hr
    omega

end Leaderboard

namespace Leaderboard

/-- A successful leaderboard response implies the request was valid. -/
theorem valid_of_get_leaderboard_ok {store : Store} {page page_size : Int}
    {out : LbPage} (h : get_leaderboard store page page_size = .ok out) :
    1 ≤ page ∧ 1 ≤ page_size ∧ page_size ≤ 100 := by
  by_contra hc
  unfold get_leaderboard at h
  rw [if_neg hc] at h
  exact Except.noConfusion h

/-- A successful leaderboard response is exactly the page built from the
ordered slice. -/
theorem out_eq_of_get_leaderboard_ok {table : List Row} {page page_size : Int}
    {out : LbPage}
    (h : get_leaderboard (supabaseStore table) page page_size = .ok out) :
    out = ⟨mkItems table (pageRows table page page_size), page, page_size⟩ := by
  obtain ⟨h1, h2, h3⟩ := valid_of_get_leaderboard_ok h
  rw [get_leaderboard_supabase table page page_size h1 h2 h3] at h
  exact (Except.ok.inj h).symm

/-- Every response item is the projection of one row of the slice. -/
theorem mem_items_correspond {table : List Row} {rows : List Row}
    {e : RankedEntry} (he : e ∈ mkItems table rows) :
    ∃ r ∈ rows, e.id = r.id ∧ e.username = r.username ∧ e.avatar = r.avatar ∧
      e.score = outScore r := by
  cases rows with
  | nil => simp [mkItems] at he
  | cons r0 rest =>
    simp only [mkItems] at he
    rw [List.mem_map] at he
    obtain ⟨r, hr, rfl⟩ := he
    exact ⟨r, hr, rfl, rfl, rfl, rfl⟩

/-- Rows served on a page are rows of the table. -/
theorem mem_table_of_mem_pageRows {table : List Row} {page page_size : Int}
    {r : Row} (h : r ∈ pageRows table page page_size) : r ∈ table := by
  unfold pageRows at h
  exact mem_sortRows.mp (List.mem_of_mem_drop (List.mem_of_mem_take h))

/-- The response items carry exactly the slice's reported scores, in order. -/
theorem items_score_map (table : List Row) (rows : List Row) :
    (mkItems table rows).map (fun i => i.score) = rows.map outScore := by
  cases rows with
  | nil => rfl
  | cons r0 rest =>
    simp [mkItems, List.map_map]

/-- With unique ids, a row of the table is determined by its id. -/
theorem eq_of_uniqueIds {table : List Row} (h : UniqueIds table) {a b : Row}
    (ha : a ∈ table) (hb : b ∈ table) (hid : a.id = b.id) : a = b := by
  induction table with
  | nil => cases ha
  | cons x t ih =>
    rcases List.pairwise_cons.mp h with ⟨hx, ht⟩
    rcases List.mem_cons.mp ha with rfl | ha2
    · rcases List.mem_cons.mp hb with rfl | hb2
      · rfl
      · exact absurd hid (hx b hb2)
    · rcases List.mem_cons.mp hb with rfl | hb2
      · exact absurd hid.symm (hx a ha2)
      · exact ih ht ha2 hb2

/-- The within-page part of the position computation: an item's assigned
offset is the number of distinct page scores strictly above its own. -/
theorem position_formula (table : List Row) {r0 : Row} {rest : List Row} :
    ∀ e ∈ mkItems table (r0 :: rest),
      e.position = countDistinctHigher table (outScore r0) + 1 +
        (((r0 :: rest).map outScore).toFinset.filter
          (fun w => e.score < w)).card := by
  intro e he
  simp only [mkItems] at he
  rw [List.mem_map] at he
  obtain ⟨r, hr, rfl⟩ := he
  obtain ⟨hUfin, hUnd, hUsorted⟩ := uniq_spec ((r0 :: rest).map outScore)
  have hmemU : outScore r ∈
      ((r0 :: rest).map outScore).dedup.insertionSort natDescLE := by
    rw [← List.mem_toFinset, hUfin, List.mem_toFinset]
    exact List.mem_map_of_mem outScore hr
  show countDistinctHigher table (outScore r0) + 1 +
      (if outScore r ∈ ((r0 :: rest).map outScore).dedup.insertionSort natDescLE
        then (((r0 :: rest).map outScore).dedup.insertionSort natDescLE).indexOf
          (outScore r)
        else 0) = _
  rw [if_pos hmemU, indexOf_sorted_desc hUsorted hUnd hmemU,
    ← List.toFinset_card_of_nodup (List.Nodup.filter _ hUnd),
    List.toFinset_filter, hUfin]
  congr 2
  apply Finset.filter_congr
  intro w hw
  simp

end Leaderboard

namespace Leaderboard

/-- Tables of at most 100000 rows never exceed the higher-score scan cap. -/
theorem cap_of_small (table : List Row) (h : table.length ≤ 100000) :
    ∀ x, (qualScores table x).length ≤ 100000 := fun _ =>
  le_trans (List.length_filter_le _ _)
    (le_trans (List.length_filterMap_le _ _) h)

/-- Strictly higher scores present in the table have strictly more distinct
scores above a lower threshold. -/
theorem exactDistinctHigher_lt {table : List Row} (hN : NoNulls table)
    {s1 s2 : Nat} (hmem : s1 ∈ table.map outScore) (h : s2 < s1) :
    exactDistinctHigher table s1 < exactDistinctHigher table s2 := by
  rw [exactDistinctHigher_eq hN, exactDistinctHigher_eq hN]
  apply Finset.card_lt_card
  rw [Finset.ssubset_iff_of_subset]
  · refine ⟨s1, ?_, by simp⟩
    rw [Finset.mem_filter]
    exact ⟨List.mem_toFinset.mpr hmem, h⟩
  · intro w hw
    rw [Finset.mem_filter] at hw ⊢
    exact ⟨hw.1, lt_trans h hw.2⟩

/-- C1 (amended): for every non-empty page, each item's position equals
baseRank plus the number of distinct page scores strictly greater than its
own score (its 0-based rank among the page's distinct scores sorted
descending), where baseRank is one more than the number of distinct scores
among the up-to-100000 highest-scoring rows strictly above the page's top
score; on the table [(1,100),(2,100),(3,90),(4,80)], page (1,10) yields
positions [1,1,2,3] in that id order. -/
theorem c1_position_formula :
    (∀ (table : List Row) (page page_size : Int) (out : LbPage)
      (e0 e : RankedEntry),
      get_leaderboard (supabaseStore table) page page_size = .ok out →
      out.items.head? = some e0 → e ∈ out.items →
      e.position = countDistinctHigher table e0.score + 1 +
        ((out.items.map (fun i => i.score)).toFinset.filter
          (fun w => e.score < w)).card) ∧
    get_leaderboard (supabaseStore exTable) 1 10 =
      .ok ⟨[⟨1, "u1", none, 100, 1⟩, ⟨2, "u2", none, 100, 1⟩,
        ⟨3, "u3", none, 90, 2⟩, ⟨4, "u4", none, 80, 3⟩], 1, 10⟩ := by
  constructor
  · intro table page page_size out e0 e hok hhead he
    have ho := out_eq_of_get_leaderboard_ok hok
    subst ho
    have he2 : e ∈ mkItems table (pageRows table page page_size) := he
    have hhead2 : (mkItems table (pageRows table page page_size)).head? =
      some e0 := hhead
    show e.position = countDistinctHigher table e0.score + 1 +
      (((mkItems table (pageRows table page page_size)).map
        (fun i => i.score)).toFinset.filter (fun w => e.score < w)).card
    rw [items_score_map]
    rcases hrows : pageRows table page page_size with _ | ⟨r0, rest⟩
    · rw [hrows] at hhead2
      simp [mkItems] at hhead2
    · rw [hrows] at hhead2 he2
      have he0 : e0.score = outScore r0 := by
        simp only [mkItems, List.map_cons, List.head?_cons,
          Option.some.injEq] at hhead2
        rw [← hhead2]
      rw [he0]
      exact position_formula table e he2
  · decide

/-- C1 counterexample: on the big table, page 100003 of size 1 serves the
score-1 row at position 2, while the claim's whole-table baseRank predicts
`exactDistinctHigher bigTable 1 + 1 + 0 = 3`. -/
theorem c1_counterexample :
    get_leaderboard (supabaseStore bigTable) 100003 1 =
        .ok ⟨[⟨100002, "w", none, 1, 2⟩], 100003, 1⟩ ∧
      exactDistinctHigher bigTable 1 + 1 + 0 = 3 ∧ (2 : Nat) ≠ 3 :=
  ⟨page_100003_bigTable, by rw [exactDistinctHigher_bigTable_one], by norm_num⟩

/-- C1 witness: the amended formula instantiated on the scenario table for
the score-90 item of page (1, 10). -/
theorem c1_witness :
    (⟨3, "u3", none, 90, 2⟩ : RankedEntry).position =
      countDistinctHigher exTable (⟨1, "u1", none, 100, 1⟩ : RankedEntry).score
        + 1 +
        ((([⟨1, "u1", none, 100, 1⟩, ⟨2, "u2", none, 100, 1⟩,
          ⟨3, "u3", none, 90, 2⟩, ⟨4, "u4", none, 80, 3⟩] :
            List RankedEntry).map (fun i => i.score)).toFinset.filter
          (fun w => (⟨3, "u3", none, 90, 2⟩ : RankedEntry).score < w)).card :=
  c1_position_formula.1 exTable 1 10
    ⟨[⟨1, "u1", none, 100, 1⟩, ⟨2, "u2", none, 100, 1⟩,
      ⟨3, "u3", none, 90, 2⟩, ⟨4, "u4", none, 80, 3⟩], 1, 10⟩
    ⟨1, "u1", none, 100, 1⟩ ⟨3, "u3", none, 90, 2⟩
    (by decide) (by decide) (by decide)

/-- C2 (amended): the client-side de-duplicated count equals the exact
distinct-higher count whenever at most 100000 rows have a strictly greater
score. -/
theorem c2_capped_count_exact (table : List Row) (x : Nat)
    (hcap : (qualScores table x).length ≤ 100000) :
    countDistinctHigher table x = exactDistinctHigher table x :=
  countDistinctHigher_eq_exact hcap

/-- C2 counterexample: on the big table 100002 rows score above 1, and the
capped count reports 1 distinct higher score while the exact count is 2. -/
theorem c2_counterexample :
    countDistinctHigher bigTable 1 = 1 ∧ exactDistinctHigher bigTable 1 = 2 ∧
      100000 < (qualScores bigTable 1).length :=
  ⟨countDistinctHigher_bigTable_one, exactDistinctHigher_bigTable_one, by
    rw [qualScores_bigTable_one, List.length_append, List.length_replicate]
    norm_num⟩

/-- C2 witness: on the small scenario table both counts agree at score 90. -/
theorem c2_witness :
    (qualScores exTable 90).length ≤ 100000 ∧
      countDistinctHigher exTable 90 = exactDistinctHigher exTable 90 :=
  ⟨by decide, c2_capped_count_exact exTable 90 (by decide)⟩

/-- C3 (amended): on a null-free table whose higher-score scans stay within
the 100000-row cap, any two response items — from the same or different
pages of the unchanged table — with equal scores have identical positions,
and an item with a strictly greater score has a strictly smaller position. -/
theorem c3_cross_page_consistency (table : List Row) (p1 s1 p2 s2 : Int)
    (out1 out2 : LbPage) (e1 e2 : RankedEntry) (hN : NoNulls table)
    (hcap : ∀ x, (qualScores table x).length ≤ 100000)
    (h1 : get_leaderboard (supabaseStore table) p1 s1 = .ok out1)
    (h2 : get_leaderboard (supabaseStore table) p2 s2 = .ok out2)
    (he1 : e1 ∈ out1.items) (he2 : e2 ∈ out2.items) :
    (e1.score = e2.score → e1.position = e2.position) ∧
      (e2.score < e1.score → e1.position < e2.position) := by
  have ho1 := out_eq_of_get_leaderboard_ok h1
  have ho2 := out_eq_of_get_leaderboard_ok h2
  subst ho1
  subst ho2
  have he1m : e1 ∈ mkItems table (pageRows table p1 s1) := he1
  have he2m : e2 ∈ mkItems table (pageRows table p2 s2) := he2
  have hp1 := position_eq_denseRank table p1 s1 hN hcap e1 he1m
  have hp2 := position_eq_denseRank table p2 s2 hN hcap e2 he2m
  constructor
  · intro hs
    rw [hp1, hp2, hs]
  · intro hs
    obtain ⟨r, hrP, -, -, -, hsc⟩ := mem_items_correspond he1m
    have hmem : e1.score ∈ table.map outScore := by
      rw [hsc]
      exact List.mem_map_of_mem outScore (mem_table_of_mem_pageRows hrP)
    have := exactDistinctHigher_lt hN hmem hs
    omega

/-- C3 counterexample: on the big table the score-2 row (page 100002) and
the score-1 row (page 100003) both get position 2 — a strictly greater
score without a strictly smaller position. -/
theorem c3_counterexample :
    get_leaderboard (supabaseStore bigTable) 100002 1 =
        .ok ⟨[⟨100001, "v", none, 2, 2⟩], 100002, 1⟩ ∧
      get_leaderboard (supabaseStore bigTable) 100003 1 =
        .ok ⟨[⟨100002, "w", none, 1, 2⟩], 100003, 1⟩ ∧
      (1 : Nat) < 2 ∧ ¬ (2 : Nat) < 2 :=
  ⟨page_100002_bigTable, page_100003_bigTable, by norm_num, by norm_num⟩

/-- C3 witness: instantiated on the scenario table across pages (1,10) and
(2,2). -/
theorem c3_witness :
    ((⟨1, "u1", none, 100, 1⟩ : RankedEntry).score =
        (⟨4, "u4", none, 80, 3⟩ : RankedEntry).score →
      (⟨1, "u1", none, 100, 1⟩ : RankedEntry).position =
        (⟨4, "u4", none, 80, 3⟩ : RankedEntry).position) ∧
      ((⟨4, "u4", none, 80, 3⟩ : RankedEntry).score <
        (⟨1, "u1", none, 100, 1⟩ : RankedEntry).score →
      (⟨1, "u1", none, 100, 1⟩ : RankedEntry).position <
        (⟨4, "u4", none, 80, 3⟩ : RankedEntry).position) :=
  c3_cross_page_consistency exTable 1 10 2 2
    ⟨[⟨1, "u1", none, 100, 1⟩, ⟨2, "u2", none, 100, 1⟩,
      ⟨3, "u3", none, 90, 2⟩, ⟨4, "u4", none, 80, 3⟩], 1, 10⟩
    ⟨[⟨3, "u3", none, 90, 2⟩, ⟨4, "u4", none, 80, 3⟩], 2, 2⟩
    ⟨1, "u1", none, 100, 1⟩ ⟨4, "u4", none, 80, 3⟩
    (by unfold NoNulls; decide) (cap_of_small exTable (by decide))
    (by decide) (by decide) (by decide) (by decide)

end Leaderboard

namespace Leaderboard

/-- C4 (amended): on a null-free, unique-id table whose higher-score scans
stay within the 100000-row cap, `get_my_rank` for a user returns exactly the
entry (same fields, same position) that `get_leaderboard` shows for that
user on the page containing them. -/
theorem c4_user_rank_agrees (table : List Row) (uid : Nat) (p s : Int)
    (out : LbPage) (e : RankedEntry) (hN : NoNulls table)
    (hcap : ∀ x, (qualScores table x).length ≤ 100000)
    (hU : UniqueIds table)
    (hok : get_leaderboard (supabaseStore table) p s = .ok out)
    (he : e ∈ out.items) (hid : e.id = uid) :
    get_my_rank (supabaseStore table) uid = .ok e := by
  have ho := out_eq_of_get_leaderboard_ok hok
  subst ho
  have hem : e ∈ mkItems table (pageRows table p s) := he
  obtain ⟨r, hrP, hid2, hun, hav, hsc⟩ := mem_items_correspond hem
  have hrT : r ∈ table := mem_table_of_mem_pageRows hrP
  have hpos := position_eq_denseRank table p s hN hcap e hem
  rw [get_my_rank_supabase]
  rcases hf : table.find? (fun x => x.id == uid) with _ | row
  · rw [List.find?_eq_none] at hf
    have : (r.id == uid) = true := by
      rw [beq_iff_eq, ← hid2, hid]
    simpa [this] using hf r hrT
  · have hrow_mem := List.mem_of_find?_eq_some hf
    have hrow_id : row.id = uid := by simpa using List.find?_some hf
    have hrr : row = r :=
      eq_of_uniqueIds hU hrow_mem hrT (by rw [hrow_id, ← hid, hid2])
    subst hrr
    rw [hf]
    show Except.ok (RankedEntry.mk row.id row.username row.avatar
      (row.score.getD 0) (countDistinctHigher table (row.score.getD 0) + 1)) =
      Except.ok e
    have hout : (row.score.getD 0) = e.score := by
      rw [hsc]
      rfl
    rw [hout, countDistinctHigher_eq_exact (hcap e.score)]
    refine congrArg Except.ok ?_
    cases e with
    | mk i u a sc pos =>
      dsimp only at hid2 hun hav hsc hpos ⊢
      rw [RankedEntry.mk.injEq]
      exact ⟨hid2.symm, hun.symm, hav.symm, rfl, by omega⟩

/-- C4 counterexample: on the big table, user 100002 appears on page 25001
of size 4 at position 3, but `get_my_rank` reports position 2. -/
theorem c4_counterexample :
    get_leaderboard (supabaseStore bigTable) 25001 4 =
        .ok ⟨[⟨0, "t", none, 3, 1⟩, ⟨100001, "v", none, 2, 2⟩,
          ⟨100002, "w", none, 1, 3⟩], 25001, 4⟩ ∧
      get_my_rank (supabaseStore bigTable) 100002 =
        .ok ⟨100002, "w", none, 1, 2⟩ ∧
      (2 : Nat) ≠ 3 :=
  ⟨page_25001_bigTable, myrank_bigTable_100002, by norm_num⟩

/-- C4 witness: on the scenario table, `get_my_rank(3)` returns the same
entry that page (1, 10) shows for user 3, with position 2. -/
theorem c4_witness :
    get_my_rank (supabaseStore exTable) 3 = .ok ⟨3, "u3", none, 90, 2⟩ :=
  c4_user_rank_agrees exTable 3 1 10
    ⟨[⟨1, "u1", none, 100, 1⟩, ⟨2, "u2", none, 100, 1⟩,
      ⟨3, "u3", none, 90, 2⟩, ⟨4, "u4", none, 80, 3⟩], 1, 10⟩
    ⟨3, "u3", none, 90, 2⟩
    (by unfold NoNulls; decide) (cap_of_small exTable (by decide))
    (by unfold UniqueIds; decide) (by decide) (by decide) (by decide)

end Leaderboard

namespace Leaderboard

/-- On rows with integer scores, the implementation's query order coincides
with the spec's ordering contract. -/
theorem rowLE_iff_specLE {a b : Row} (ha : a.score ≠ none)
    (hb : b.score ≠ none) : rowLE a b ↔ specLE a b := by
  rcases hsa : a.score with _ | x
  · exact absurd hsa ha
  rcases hsb : b.score with _ | y
  · exact absurd hsb hb
  unfold rowLE specLE outScore
  rw [hsa, hsb]
  constructor
  · rintro (h | ⟨heq, ht⟩)
    · exact Or.inl h
    · exact Or.inr ⟨by rw [Option.some.inj heq], ht⟩
  · rintro (h | ⟨heq, ht⟩)
    · exact Or.inl h
    · refine Or.inr ⟨?_, ht⟩
      simp only [Option.getD_some] at heq
      rw [heq]

/-- On a null-free table the served order satisfies the spec's ordering
contract. -/
theorem sorted_specLE {table : List Row} (hN : NoNulls table) :
    List.Sorted specLE (sortRows table) := by
  refine List.Pairwise.imp_of_mem ?_ (sortRows_sorted table)
  intro a b ha hb hab
  exact (rowLE_iff_specLE (hN a (mem_sortRows.mp ha))
    (hN b (mem_sortRows.mp hb))).mp hab

/-- Projecting positions away, a page's items are exactly its slice's rows. -/
theorem entryData_mkItems (table : List Row) (rows : List Row) :
    (mkItems table rows).map entryData = rows.map rowData := by
  cases rows with
  | nil => rfl
  | cons r0 rest =>
    simp only [mkItems, List.map_map]
    rfl

/-- Splitting a list into consecutive chunks of size `s` and concatenating
reproduces the list, given enough chunks. -/
theorem flatMap_chunks {α : Type _} (s : Nat) (hs : 1 ≤ s) :
    ∀ (n : Nat) (l : List α), l.length ≤ n * s →
      (List.range n).flatMap (fun k => (l.drop (k * s)).take s) = l
  | 0, l, h => by
    have hl : l = [] :=
      List.eq_nil_of_length_eq_zero (Nat.le_zero.mp (by simpa using h))
    subst hl
    rfl
  | n + 1, l, h => by
    rw [List.range_succ_eq_map, List.flatMap_cons]
    have h0 : (l.drop (0 * s)).take s = l.take s := by
      rw [Nat.zero_mul]
      rfl
    rw [h0]
    have hrest : (List.map Nat.succ (List.range n)).flatMap
        (fun k => (l.drop (k * s)).take s) =
        (List.range n).flatMap (fun k => ((l.drop s).drop (k * s)).take s) := by
      rw [List.flatMap_map]
      apply List.flatMap_congr
      intro k hk
      show (l.drop (Nat.succ k * s)).take s = _
      rw [List.drop_drop]
      have : Nat.succ k * s = s + k * s := by
        rw [Nat.succ_mul]
        exact Nat.add_comm _ _
      rw [this]
    rw [hrest, flatMap_chunks s hs n (l.drop s) (by
      rw [List.length_drop]
      rw [Nat.succ_mul] at h
      omega)]
    exact List.take_append_drop s l

/-- Page `k + 1` serves the `k`-th chunk of the ordered table. -/
theorem pageRows_offset (table : List Row) (s : Int) (k : Nat) (hs : 1 ≤ s) :
    pageRows table ((k : Int) + 1) s =
      ((sortRows table).drop (k * s.toNat)).take s.toNat := by
  unfold pageRows
  congr 2
  rw [show ((k : Int) + 1 - 1) = (k : Int) from by ring]
  rw [show (k : Int) * s = ((k * s.toNat : Nat) : Int) from by
    have hs0 : ((s.toNat : Int)) = s := Int.toNat_of_nonneg (by omega)
    push_cast
    rw [hs0]]
  exact Int.toNat_natCast _

/-- The items of page `k + 1` over the live store. -/
theorem pageItems_eq (table : List Row) (s : Int) (k : Nat)
    (h2 : 1 ≤ s) (h3 : s ≤ 100) :
    pageItems table ((k : Int) + 1) s =
      mkItems table (((sortRows table).drop (k * s.toNat)).take s.toNat) := by
  unfold pageItems
  rw [get_leaderboard_supabase table ((k : Int) + 1) s (by omega) h2 h3]
  show mkItems table (pageRows table ((k : Int) + 1) s) = _
  rw [pageRows_offset table s k h2]

/-- C5: for every null-free table and valid page size, concatenating the
item sequences of pages `1..n` — with `n` large enough that page `n + 1`
and beyond are empty — reproduces exactly the full table sorted by score
descending, then created_at ascending, then id ascending, with no record
duplicated and none omitted: the concatenation projects onto a row sequence
that is a permutation of the table and is sorted by the spec's order. -/
theorem c5_exhaustive_paging (table : List Row) (s : Int) (n : Nat)
    (hN : NoNulls table) (h2 : 1 ≤ s) (h3 : s ≤ 100)
    (hn : table.length ≤ n * s.toNat) :
    ∃ rows : List Row, List.Perm rows table ∧ List.Sorted specLE rows ∧
      (pagesConcat table s n).map entryData = rows.map rowData := by
  refine ⟨sortRows table, sortRows_perm table, sorted_specLE hN, ?_⟩
  unfold pagesConcat
  rw [List.map_flatMap]
  rw [List.flatMap_congr (fun k hk => by
    rw [pageItems_eq table s k h2 h3, entryData_mkItems])]
  rw [← List.map_flatMap]
  rw [flatMap_chunks s.toNat (by omega) n (sortRows table) (by
    rw [(sortRows_perm table).length_eq]
    exact hn)]

/-- C5 witness: pages (1,2) and (2,2) of the scenario table reproduce it. -/
theorem c5_witness :
    ∃ rows : List Row, List.Perm rows exTable ∧ List.Sorted specLE rows ∧
      (pagesConcat exTable 2 2).map entryData = rows.map rowData :=
  c5_exhaustive_paging exTable 2 2 (by unfold NoNulls; decide)
    (by norm_num) (by norm_num) (by decide)

end Leaderboard

namespace Leaderboard

/-- Replacing null scores by stored zeros leaves the higher-score query
unchanged: null rows never pass `gt`, and score-0 rows never exceed a
`Nat` threshold. -/
theorem qualScores_patchZero (table : List Row) (x : Nat) :
    qualScores (patchZero table) x = qualScores table x := by
  induction table with
  | nil => rfl
  | cons r t ih =>
    unfold qualScores patchZero at *
    rw [List.map_cons, List.filterMap_cons, List.filterMap_cons]
    rcases hs : r.score with _ | v
    · show List.filter _ ((outScore r) :: _) = _
      rw [List.filter_cons_of_neg (by
        simp only [decide_eq_true_eq, outScore, hs, Option.getD_none]
        omega)]
      exact ih
    · show List.filter _ ((outScore r) :: _) = List.filter _ (v :: _)
      have : outScore r = v := by
        unfold outScore
        rw [hs]
        rfl
      rw [this]
      rcases hxv : decide (x < v) with _ | _
      · rw [List.filter_cons_of_neg (by simp [hxv]),
          List.filter_cons_of_neg (by simp [hxv])]
        exact ih
      · rw [List.filter_cons_of_pos (by simp [hxv]),
          List.filter_cons_of_pos (by simp [hxv]), ih]

theorem countDistinctHigher_patchZero (table : List Row) (x : Nat) :
    countDistinctHigher (patchZero table) x = countDistinctHigher table x := by
  unfold countDistinctHigher fetchHigherList
  rw [qualScores_patchZero]

/-- `get_my_rank` is unchanged when a null stored score is replaced by a
stored 0: the user is ranked exactly as if the score were 0. -/
theorem get_my_rank_patchZero (table : List Row) (uid : Nat) :
    get_my_rank (supabaseStore (patchZero table)) uid =
      get_my_rank (supabaseStore table) uid := by
  rw [get_my_rank_supabase, get_my_rank_supabase]
  show (match (patchZero table).find? (fun r => r.id == uid) with
    | none => (Except.error Err.notFound : Except Err RankedEntry)
    | some row => .ok ⟨row.id, row.username, row.avatar, row.score.getD 0,
        countDistinctHigher (patchZero table) (row.score.getD 0) + 1⟩) = _
  unfold patchZero
  rw [List.find?_map,
    show ((fun (r : Row) => r.id == uid) ∘
      (fun r => { r with score := some (outScore r) })) =
      (fun (r : Row) => r.id == uid) from rfl]
  rcases hf : table.find? (fun r => r.id == uid) with _ | row
  · rw [hf]
    rfl
  · rw [hf]
    show (Except.ok ⟨row.id, row.username, row.avatar,
      (some (outScore row)).getD 0,
      countDistinctHigher (patchZero table) ((some (outScore row)).getD 0) + 1⟩ :
        Except Err RankedEntry) = _
    rw [show (some (outScore row)).getD 0 = row.score.getD 0 from rfl,
      countDistinctHigher_patchZero]

/-- C9 (amended): rows with a null stored score never make either operation
fail: `get_my_rank` succeeds for any stored user, reports score 0 for a
null-score user and ranks them exactly as if the stored score were 0 (the
result is unchanged under replacing nulls by stored zeros); and
`get_leaderboard` succeeds on every valid request over any table, reporting
score 0 for null rows.  (The null row's page position does NOT match the
as-if-0 ranking, because the descending order puts null scores first — see
the counterexample.) -/
theorem c9_null_scores :
    (∀ (table : List Row) (uid : Nat) (r : Row),
      table.find? (fun x => x.id == uid) = some r →
      get_my_rank (supabaseStore table) uid =
          get_my_rank (supabaseStore (patchZero table)) uid ∧
        ∃ m, get_my_rank (supabaseStore table) uid = .ok m ∧
          (r.score = none → m.score = 0)) ∧
    (∀ (table : List Row) (page page_size : Int),
      1 ≤ page → 1 ≤ page_size → page_size ≤ 100 →
      ∃ out, get_leaderboard (supabaseStore table) page page_size = .ok out) ∧
    (∀ (table : List Row) (p s : Int) (out : LbPage) (e : RankedEntry)
      (r : Row), UniqueIds table →
      get_leaderboard (supabaseStore table) p s = .ok out → e ∈ out.items →
      r ∈ table → e.id = r.id → r.score = none → e.score = 0) := by
  refine ⟨?_, ?_, ?_⟩
  · intro table uid r hf
    refine ⟨(get_my_rank_patchZero table uid).symm, ?_⟩
    rw [get_my_rank_supabase, hf]
    refine ⟨_, rfl, ?_⟩
    intro hnull
    show r.score.getD 0 = 0
    rw [hnull]
    rfl
  · intro table page page_size h1 h2 h3
    exact ⟨_, get_leaderboard_supabase table page page_size h1 h2 h3⟩
  · intro table p s out e r hU hok he hrT hid hnull
    have ho := out_eq_of_get_leaderboard_ok hok
    subst ho
    have hem : e ∈ mkItems table (pageRows table p s) := he
    obtain ⟨r2, hr2P, hid2, -, -, hsc⟩ := mem_items_correspond hem
    have hr2T : r2 ∈ table := mem_table_of_mem_pageRows hr2P
    have : r2 = r := eq_of_uniqueIds hU hr2T hrT (by rw [← hid2, hid])
    subst this
    rw [hsc]
    unfold outScore
    rw [hnull]
    rfl

/-- C9 counterexample: in the table [(id 1, score null), (id 2, score 5)]
the null row sorts first (SQL nulls-first under descending order) and gets
position 3, while with a stored score 0 it would sort last and get position
2 — the row is not ranked as if its score were 0. -/
theorem c9_counterexample :
    get_leaderboard (supabaseStore nullTable) 1 10 =
        .ok ⟨[⟨1, "a", none, 0, 3⟩, ⟨2, "b", none, 5, 2⟩], 1, 10⟩ ∧
      get_leaderboard (supabaseStore (patchZero nullTable)) 1 10 =
        .ok ⟨[⟨2, "b", none, 5, 1⟩, ⟨1, "a", none, 0, 2⟩], 1, 10⟩ ∧
      (3 : Nat) ≠ 2 :=
  ⟨by decide, by decide, by norm_num⟩

/-- C9 witness: the amended statement instantiated on the two-row null
table. -/
theorem c9_witness :
    (get_my_rank (supabaseStore nullTable) 1 =
        get_my_rank (supabaseStore (patchZero nullTable)) 1 ∧
      ∃ m, get_my_rank (supabaseStore nullTable) 1 = .ok m ∧
        ((⟨1, "a", none, none, 1⟩ : Row).score = none → m.score = 0)) ∧
      (∃ out, get_leaderboard (supabaseStore nullTable) 1 10 = .ok out) ∧
      (⟨1, "a", none, 0, 3⟩ : RankedEntry).score = 0 :=
  ⟨c9_null_scores.1 nullTable 1 ⟨1, "a", none, none, 1⟩ (by decide),
    c9_null_scores.2.1 nullTable 1 10 (by norm_num) (by norm_num) (by norm_num),
    c9_null_scores.2.2 nullTable 1 10
      ⟨[⟨1, "a", none, 0, 3⟩, ⟨2, "b", none, 5, 2⟩], 1, 10⟩
      ⟨1, "a", none, 0, 3⟩ ⟨1, "a", none, none, 1⟩
      (by unfold UniqueIds; decide) (by decide) (by decide) (by decide)
      (by decide) (by decide)⟩

end Leaderboard
